import Mathlib

/-!
# Verification of `simple-svelte-query` (src/lib/query.svelte.ts)

Shallow embedding of the query-cache core: `Query` (descriptor with canonical
JSON key, stale time and query function), `CacheEntry` (held promise plus
`createdAt` timestamp), and `QueryClient` operations (`fetchQuery`,
`ensureQuery`, `setQuery`, `getQuery`, `invalidateQuery`, `invalidateQueries`).

Modelling conventions:
* JS strings are `List Char`; `String.prototype.startsWith` is `strStarts`,
  `String.prototype.slice(0, -1)` is `List.dropLast`.
* JS values that can appear in a query key are `JsVal`; `JSON.stringify` of a
  key array is `stringifyKey` (faithful to JSON: `undefined`, `NaN`,
  `Infinity` and functions inside an array serialize as `null`; strings are
  quoted and escaped; integers print in decimal).
* A JS `Promise` is `Prom`: either the promise returned by the n-th invocation
  of a query function (carrying its eventual outcome, fulfilment or rejection,
  as `Except`), or a `Promise.resolve(v)`.  Promise identity is equality of
  this data; the cache never wraps or transforms a promise, so the value held
  in an entry is literally the value produced at creation.
* `Date.now()` is an `Int` passed to each operation as `now`; a `createdAt`
  field lives in `ETime`, the JS number line extended with `-Infinity`
  (the value written by `invalidate`).
* The ambient `Map` is an association list with first-match lookup; `Map.set`
  replaces the first binding in place (JS `Map.set` keeps insertion position).
* The static field `QueryClient.staleTime` is the single field of
  `GlobalState`, threaded explicitly; the `QueryClient` constructor writes it,
  and `Query`'s constructor reads it as the default.
* A query-function invocation is counted by `nextCallId` in the client state:
  every call of `Query.fetch` consumes one id, so "compute was not invoked"
  is "`nextCallId` is unchanged".
-/

/-- JS values usable as query-key fragments, including the values JSON cannot
represent (`undefined`, `NaN`, `Infinity`, functions), which `JSON.stringify`
turns into `null` inside an array. -/
inductive JsVal where
  | jsNull : JsVal
  | jsUndef : JsVal
  | jsNan : JsVal
  | jsInf : JsVal
  | jsFunc : JsVal
  | jsBool : Bool → JsVal
  | jsInt : Int → JsVal
  | jsStr : String → JsVal
  | jsArr : List JsVal → JsVal

/-- JSON string escaping of one character, as `JSON.stringify` performs on the
contents of a string literal. -/
def escChar (c : Char) : List Char :=
  if c = '"' then ['\\', '"']
  else if c = '\\' then ['\\', '\\']
  else if c = '\n' then ['\\', 'n']
  else if c = '\t' then ['\\', 't']
  else if c = '\r' then ['\\', 'r']
  else if c = '\x08' then ['\\', 'b']
  else if c = '\x0c' then ['\\', 'f']
  else if c.toNat < 32 then
    ['\\', 'u', '0', '0',
     (Nat.digitChar (c.toNat / 16)), (Nat.digitChar (c.toNat % 16))]
  else [c]

/-- JSON escaping of a whole string body. -/
def escStr (s : List Char) : List Char := s.flatMap escChar

mutual
/-- `JSON.stringify` of one value appearing inside an array: `undefined`,
`NaN`, `Infinity` and functions serialize as `null`; booleans and integers in
their decimal form; strings quoted and escaped; arrays bracketed with
comma-separated elements. -/
def encVal : JsVal → List Char
  | .jsNull => ['n', 'u', 'l', 'l']
  | .jsUndef => ['n', 'u', 'l', 'l']
  | .jsNan => ['n', 'u', 'l', 'l']
  | .jsInf => ['n', 'u', 'l', 'l']
  | .jsFunc => ['n', 'u', 'l', 'l']
  | .jsBool true => ['t', 'r', 'u', 'e']
  | .jsBool false => ['f', 'a', 'l', 's', 'e']
  | .jsInt n => (toString n).data
  | .jsStr s => '"' :: (escStr s.data ++ ['"'])
  | .jsArr xs => '[' :: (encList xs ++ [']'])

/-- Comma-separated encoding of the elements of an array. -/
def encList : List JsVal → List Char
  | [] => []
  | [x] => encVal x
  | x :: y :: xs => encVal x ++ ',' :: encList (y :: xs)
end

/-- `JSON.stringify(queryKey)` for a key array — the canonical cache key
(`Query.#queryKey` in the source). -/
def stringifyKey (key : List JsVal) : List Char :=
  encVal (.jsArr key)

mutual
/-- The normalization `JSON.parse(JSON.stringify(v))` performs on a value
inside an array: the JSON-unrepresentable fragments come back as `null`,
everything else round-trips structurally. -/
def normalizeJson : JsVal → JsVal
  | .jsUndef => .jsNull
  | .jsNan => .jsNull
  | .jsInf => .jsNull
  | .jsFunc => .jsNull
  | .jsArr xs => .jsArr (normalizeList xs)
  | .jsNull => .jsNull
  | .jsBool b => .jsBool b
  | .jsInt n => .jsInt n
  | .jsStr s => .jsStr s

/-- Elementwise JSON round-trip normalization of an array's contents. -/
def normalizeList : List JsVal → List JsVal
  | [] => []
  | x :: xs => normalizeJson x :: normalizeList xs
end

/-- `String.prototype.startsWith`: does `s` begin with `p`? -/
def strStarts (s p : List Char) : Bool :=
  match p, s with
  | [], _ => true
  | _ :: _, [] => false
  | c :: cs, d :: ds => c == d && strStarts ds cs

/-- The JS number line extended with `-Infinity`, the value
`CacheEntry.invalidate` writes into `createdAt`. -/
inductive ETime where
  | negInf : ETime
  | fin : Int → ETime
deriving DecidableEq

/-- The eventual outcome of a JS promise: fulfilled with a value or rejected
with a reason. -/
abbrev Outcome (E T : Type) := Except E T

/-- A cached JS promise, identified by how it was produced: `computed n o` is
the promise returned by the n-th invocation of a query function (with eventual
outcome `o`, passed through unmodified by the cache), `resolved v` is
`Promise.resolve(v)` as installed by `setQuery`. -/
inductive Prom (E T : Type) where
  | computed : Nat → Outcome E T → Prom E T
  | resolved : T → Prom E T

/-- The eventual settlement of a promise. -/
def Prom.outcome {E T : Type} : Prom E T → Outcome E T
  | .computed _ o => o
  | .resolved v => .ok v

/-- The `QueryOptions` object: optional `staleTime`, the `queryKey` array, and
`queryFn` modelled by the outcome its n-th invocation's promise will settle
to (each invocation returns a fresh promise carrying that outcome). -/
structure QueryOptions (E T : Type) where
  staleTime? : Option Int
  queryKey : List JsVal
  queryFn : Nat → Outcome E T

/-- The static field `QueryClient.staleTime` — process-wide mutable state on
the class, modelled as explicitly threaded state. -/
structure GlobalState where
  staleTime : Int
deriving DecidableEq

/-- `new QueryClient(defaultStaleTime = 1000 * 60 * 5)`: the constructor
overwrites the static `QueryClient.staleTime` with its argument. -/
def constructClient (_gs : GlobalState) (d : Int := 1000 * 60 * 5) : GlobalState :=
  ⟨d⟩

/-- The `Query` descriptor after construction: the resolved stale time
(explicit `staleTime` if given, else `QueryClient.staleTime` read at
construction), the canonical key string, and the query function.  The source
keeps only `JSON.stringify(queryKey)`; we also retain the constructor's
`queryKey` argument so that the `queryKey` getter (`JSON.parse` of the stored
string) can be expressed. -/
structure Query (E T : Type) where
  staleTime : Int
  queryKey0 : List JsVal
  queryFn : Nat → Outcome E T

/-- `new Query({ staleTime = QueryClient.staleTime, queryKey, queryFn })`. -/
def Query.make {E T : Type} (opts : QueryOptions E T) (g : Int) : Query E T :=
  { staleTime := opts.staleTime?.getD g
    queryKey0 := opts.queryKey
    queryFn := opts.queryFn }

/-- The `key` getter: the canonical (stringified) cache key. -/
def Query.key {E T : Type} (q : Query E T) : List Char :=
  stringifyKey q.queryKey0

/-- The `queryKey` getter: `JSON.parse(this.#queryKey)`.  Modelled platform
behavior: parsing the `JSON.stringify` output of an array yields the
JSON-normalization of the original array (unrepresentable fragments become
`null`). -/
def Query.queryKey {E T : Type} (q : Query E T) : List JsVal :=
  normalizeList q.queryKey0

/-- `Query.isStale(lastUpdated)`: `Date.now() - lastUpdated > this.#staleTime`,
with `now` the value of `Date.now()` at call time and `-Infinity` compared as
in JS arithmetic (`now - (-Infinity) = Infinity > staleTime`). -/
def Query.isStale {E T : Type} (q : Query E T) (now : Int) (lastUpdated : ETime) : Bool :=
  match lastUpdated with
  | .negInf => true
  | .fin t => decide (now - t > q.staleTime)

/-- A cache entry: the held promise (installed at construction and never
replaced) and the `createdAt` timestamp (`Date.now()` at construction,
`-Infinity` after `invalidate`). -/
structure CacheEntry (E T : Type) where
  promise : Prom E T
  createdAt : ETime

/-- `CacheEntry.invalidate()`: set `createdAt` to `Number.NEGATIVE_INFINITY`,
leaving the held promise untouched. -/
def CacheEntry.invalidate {E T : Type} (e : CacheEntry E T) : CacheEntry E T :=
  { e with createdAt := .negInf }

/-- First-match lookup in the key-to-entry association list (`Map.get`). -/
def mapGet {α : Type} (m : List (List Char × α)) (k : List Char) : Option α :=
  match m with
  | [] => none
  | (k', v) :: rest => if k' = k then some v else mapGet rest k

/-- `Map.set`: replace the first binding of `k` in place (JS `Map.set` keeps
the key's insertion position), or append a fresh binding. -/
def mapSet {α : Type} (m : List (List Char × α)) (k : List Char) (v : α) :
    List (List Char × α) :=
  match m with
  | [] => [(k, v)]
  | (k', v') :: rest =>
    if k' = k then (k', v) :: rest else (k', v') :: mapSet rest k v

/-- The `QueryClient` instance state: the `#queries` map, plus the counter of
query-function invocations performed so far (used to give each invocation's
returned promise a fresh identity). -/
structure ClientState (E T : Type) where
  queries : List (List Char × CacheEntry E T)
  nextCallId : Nat

/-- `Query.fetch()` at the current invocation counter: calls `queryFn` and
returns its promise unmodified, consuming one invocation id. -/
def Query.fetch {E T : Type} (q : Query E T) (callId : Nat) : Prom E T :=
  .computed callId (q.queryFn callId)

/-- `QueryClient.fetchQuery(options)`: construct the `Query`; if the cache has
a non-stale entry for its key, return that entry's promise with the cache
unchanged; otherwise (absent, or present and stale) invoke `queryFn`, store a
fresh entry holding its promise, and return that promise.  (On first
population the source routes the invocation through the `hydratable` hook,
which is a transparent wrapper around the same invocation.) -/
def fetchQuery {E T : Type} (opts : QueryOptions E T) (g now : Int)
    (s : ClientState E T) : Prom E T × ClientState E T :=
  let q := Query.make opts g
  match mapGet s.queries q.key with
  | some e =>
    if q.isStale now e.createdAt then
      let p := q.fetch s.nextCallId
      (p, ⟨mapSet s.queries q.key ⟨p, .fin now⟩, s.nextCallId + 1⟩)
    else
      (e.promise, s)
  | none =>
    let p := q.fetch s.nextCallId
    (p, ⟨mapSet s.queries q.key ⟨p, .fin now⟩, s.nextCallId + 1⟩)

/-- `QueryClient.ensureQuery(options)`: if the cache has an entry for the key
(stale or not), return its promise with the cache unchanged; otherwise invoke
`queryFn` (through the `hydratable` hook), store the entry and return its
promise. -/
def ensureQuery {E T : Type} (opts : QueryOptions E T) (g now : Int)
    (s : ClientState E T) : Prom E T × ClientState E T :=
  let q := Query.make opts g
  match mapGet s.queries q.key with
  | some e => (e.promise, s)
  | none =>
    let p := q.fetch s.nextCallId
    (p, ⟨mapSet s.queries q.key ⟨p, .fin now⟩, s.nextCallId + 1⟩)

/-- `QueryClient.setQuery(queryKey, value)`: unconditionally install an entry
holding `Promise.resolve(value)` with `createdAt = Date.now()`. -/
def setQuery {E T : Type} (key : List JsVal) (v : T) (now : Int)
    (s : ClientState E T) : ClientState E T :=
  ⟨mapSet s.queries (stringifyKey key) ⟨.resolved v, .fin now⟩, s.nextCallId⟩

/-- `QueryClient.getQuery(queryKey)`: the cached promise, or `none`
(`undefined`); never triggers computation. -/
def getQuery {E T : Type} (key : List JsVal) (s : ClientState E T) :
    Option (Prom E T) :=
  (mapGet s.queries (stringifyKey key)).map (·.promise)

/-- `QueryClient.invalidateQuery(queryKey)`: exact match — if an entry exists,
set its `createdAt` to `-Infinity` (optional chaining makes the absent case a
no-op). -/
def invalidateQuery {E T : Type} (key : List JsVal) (s : ClientState E T) :
    ClientState E T :=
  match mapGet s.queries (stringifyKey key) with
  | none => s
  | some e =>
    ⟨mapSet s.queries (stringifyKey key) e.invalidate, s.nextCallId⟩

/-- `QueryClient.invalidateQueries(queryKey = [])`: compute
`JSON.stringify(queryKey).slice(0, -1)` and invalidate every stored entry
whose key string starts with it. -/
def invalidateQueries {E T : Type} (key : List JsVal) (s : ClientState E T) :
    ClientState E T :=
  let stringKey := (stringifyKey key).dropLast
  ⟨s.queries.map fun kv =>
      if strStarts kv.1 stringKey then (kv.1, kv.2.invalidate) else kv,
    s.nextCallId⟩

/-- `QueryClient.removeQuery(query)`: delete the entry for the query's key. -/
def removeQuery {E T : Type} (q : Query E T) (s : ClientState E T) :
    ClientState E T :=
  ⟨s.queries.filter (fun kv => kv.1 ≠ q.key), s.nextCallId⟩

/-- The fragment-sequence prefix relation of the SPEC (not of the source):
`specBegins p k` iff the fragment list `k` begins with the fragments of `p`.
Used to compare the source's string-prefix matching against the spec's
fragment-prefix matching. -/
def specBegins (p k : List JsVal) : Prop :=
  ∃ r, k = p ++ r

/-! ## Map lemmas -/

theorem mapGet_mapSet {α : Type} (m : List (List Char × α)) (k k' : List Char) (v : α) :
    mapGet (mapSet m k v) k' = if k = k' then some v else mapGet m k' := by
  induction m with
  | nil => simp [mapGet, mapSet]
  | cons hd tl ih =>
    obtain ⟨k0, v0⟩ := hd
    by_cases h0 : k0 = k
    · subst h0
      by_cases h1 : k0 = k'
      · subst h1; simp [mapGet, mapSet]
      · simp [mapGet, mapSet, h1]
    · by_cases h1 : k0 = k'
      · subst h1
        have hne : k ≠ k0 := fun hh => h0 hh.symm
        simp [mapGet, mapSet, h0, hne]
      · simp [mapGet, mapSet, h0, h1, ih]

theorem mapGet_invalidateMap {E T : Type} (pre : List Char)
    (m : List (List Char × CacheEntry E T)) (k : List Char) :
    mapGet (m.map fun kv => if strStarts kv.1 pre then (kv.1, kv.2.invalidate) else kv) k
      = (mapGet m k).map fun e => if strStarts k pre then e.invalidate else e := by
  induction m with
  | nil => simp [mapGet]
  | cons hd tl ih =>
    obtain ⟨k0, e0⟩ := hd
    simp only [List.map_cons]
    by_cases hs : strStarts k0 pre
    · rw [if_pos hs]
      by_cases hk : k0 = k
      · subst hk; simp [mapGet, hs]
      · simp [mapGet, hk, ih]
    · rw [if_neg hs]
      by_cases hk : k0 = k
      · subst hk; simp [mapGet, hs]
      · simp [mapGet, hk, ih]

/-! ## Concrete fixtures used by the witness theorems -/

/-- Sample options: explicit `staleTime` 100, key `['users']`, a query
function whose n-th invocation fulfils with `n`. -/
def sampleOpts : QueryOptions String Nat :=
  { staleTime? := some 100, queryKey := [.jsStr "users"], queryFn := fun n => .ok n }

/-- Sample cache entry: a resolved promise installed at time 0. -/
def sampleEntry : CacheEntry String Nat :=
  ⟨.resolved 7, .fin 0⟩

/-- Sample client state holding `sampleEntry` under the key `['users']`. -/
def sampleState : ClientState String Nat :=
  ⟨[(stringifyKey [.jsStr "users"], sampleEntry)], 0⟩

/-- An empty client state. -/
def emptyState : ClientState String Nat :=
  ⟨[], 0⟩

/-! ## Claims -/

/-- C4: `isStale(t)` holds iff `now() - t` is strictly greater than
`staleAfterMs`: at age exactly `staleAfterMs` it is `false`, at age
`staleAfterMs + 1` it is `true` (the `now` argument is the value of
`Date.now()` read at call time). -/
theorem C4_isStale_strict {E T : Type} (q : Query E T) (now t : Int) :
    (q.isStale now (.fin t) = true ↔ now - t > q.staleTime)
  ∧ q.isStale (t + q.staleTime) (.fin t) = false
  ∧ q.isStale (t + q.staleTime + 1) (.fin t) = true := by
  refine ⟨by simp [Query.isStale], ?_, ?_⟩
  · simp only [Query.isStale, decide_eq_false_iff_not]; omega
  · simp only [Query.isStale, decide_eq_true_eq]; omega

/-- C6: `invalidateQuery(K)` with an existing entry rewrites exactly the entry
at `K`'s canonical key, keeping its held promise and setting only `createdAt`
to `-Infinity`; every other key's binding is untouched, the invocation counter
is untouched, and when no entry exists the whole state is unchanged. -/
theorem C6_invalidateQuery_frame {E T : Type} (s : ClientState E T) (k : List JsVal) :
    (∀ k', mapGet (invalidateQuery k s).queries k'
        = if stringifyKey k = k'
          then (mapGet s.queries k').map fun e => ⟨e.promise, ETime.negInf⟩
          else mapGet s.queries k')
  ∧ (mapGet s.queries (stringifyKey k) = none → invalidateQuery k s = s)
  ∧ (invalidateQuery k s).nextCallId = s.nextCallId := by
  refine ⟨fun k' => ?_, fun habs => ?_, ?_⟩
  · cases hget : mapGet s.queries (stringifyKey k) with
    | none =>
      simp only [invalidateQuery, hget]
      by_cases hk : stringifyKey k = k'
      · subst hk; simp [hget]
      · simp [hk]
    | some e =>
      simp only [invalidateQuery, hget]
      by_cases hk : stringifyKey k = k'
      · subst hk
        simp [mapGet_mapSet, hget, CacheEntry.invalidate]
      · simp [mapGet_mapSet, hk]
  · simp [invalidateQuery, habs]
  · cases hget : mapGet s.queries (stringifyKey k) <;> simp [invalidateQuery, hget]

/-- C6 witness: concrete instances of the theorem — invalidating `['users']`
in `sampleState` marks that entry `-Infinity` keeping its promise, and
invalidating in the empty state is a no-op. -/
theorem C6_invalidateQuery_frame_witness :
    mapGet (invalidateQuery [.jsStr "users"] sampleState).queries
        (stringifyKey [.jsStr "users"])
      = some ⟨Prom.resolved 7, ETime.negInf⟩
  ∧ invalidateQuery [.jsStr "users"] emptyState = emptyState := by
  constructor
  · have h := (C6_invalidateQuery_frame sampleState [.jsStr "users"]).1
      (stringifyKey [.jsStr "users"])
    rw [h]; rfl
  · exact (C6_invalidateQuery_frame emptyState [.jsStr "users"]).2.1 rfl

/-- C7: `setQuery(k, v)` unconditionally replaces whatever entry `k` had
(the theorem quantifies over every prior state, stale entry or not) with an
entry holding the already-settled `Promise.resolve(v)` created at `now`, and
afterwards `getQuery(k)` returns that promise, which settles to exactly `v`. -/
theorem C7_setQuery_getQuery_roundtrip {E T : Type} (s : ClientState E T)
    (k : List JsVal) (v : T) (now : Int) :
    getQuery k (setQuery k v now s) = some (Prom.resolved v)
  ∧ mapGet (setQuery k v now s).queries (stringifyKey k)
      = some ⟨Prom.resolved v, ETime.fin now⟩
  ∧ (Prom.resolved v : Prom E T).outcome = Except.ok v := by
  refine ⟨?_, ?_, rfl⟩
  · simp [getQuery, setQuery, mapGet_mapSet]
  · simp [setQuery, mapGet_mapSet]

/-- C9: the default staleness duration is static state on `QueryClient`:
constructing a client writes it (last constructor call wins across all
instances), a `Query` constructed without an explicit `staleTime` resolves the
default current at its construction, and an explicit `staleTime` always wins
over whatever the static default is. -/
theorem C9_default_staleTime {E T : Type} (gs : GlobalState) (d d2 t : Int)
    (opts : QueryOptions E T) :
    (constructClient gs d).staleTime = d
  ∧ (constructClient (constructClient gs d) d2).staleTime = d2
  ∧ (opts.staleTime? = none →
      (Query.make opts (constructClient gs d).staleTime).staleTime = d)
  ∧ (opts.staleTime? = some t →
      ∀ g : Int, (Query.make opts g).staleTime = t) := by
  refine ⟨rfl, rfl, fun hnone => ?_, fun hsome g => ?_⟩
  · simp [Query.make, constructClient, hnone]
  · simp [Query.make, hsome]

/-- C9 witness: with no explicit `staleTime`, a query constructed after
`new QueryClient(42)` resolves 42; with explicit `staleTime` 100
(`sampleOpts`), the query resolves 100 whatever the default is. -/
theorem C9_default_staleTime_witness :
    (Query.make { sampleOpts with staleTime? := none }
        (constructClient ⟨0⟩ 42).staleTime).staleTime = 42
  ∧ (Query.make sampleOpts 42).staleTime = 100 := by
  constructor
  · exact (C9_default_staleTime ⟨0⟩ 42 0 0 { sampleOpts with staleTime? := none }).2.2.1 rfl
  · exact (C9_default_staleTime ⟨0⟩ 42 0 100 sampleOpts).2.2.2 rfl 42

/-! ## fetch/ensure path lemmas (shared) -/

theorem Query.make_key {E T : Type} (opts : QueryOptions E T) (g : Int) :
    (Query.make opts g).key = stringifyKey opts.queryKey := rfl

theorem Query.make_fetch {E T : Type} (opts : QueryOptions E T) (g : Int) (n : Nat) :
    (Query.make opts g).fetch n = Prom.computed n (opts.queryFn n) := rfl

theorem fetchQuery_hit {E T : Type} (opts : QueryOptions E T) (g now : Int)
    (s : ClientState E T) (e : CacheEntry E T)
    (hget : mapGet s.queries (stringifyKey opts.queryKey) = some e)
    (hfresh : (Query.make opts g).isStale now e.createdAt = false) :
    fetchQuery opts g now s = (e.promise, s) := by
  simp only [fetchQuery, Query.make_key, hget, hfresh]
  simp

theorem fetchQuery_stale {E T : Type} (opts : QueryOptions E T) (g now : Int)
    (s : ClientState E T) (e : CacheEntry E T)
    (hget : mapGet s.queries (stringifyKey opts.queryKey) = some e)
    (hstale : (Query.make opts g).isStale now e.createdAt = true) :
    fetchQuery opts g now s
      = (Prom.computed s.nextCallId (opts.queryFn s.nextCallId),
         ⟨mapSet s.queries (stringifyKey opts.queryKey)
            ⟨Prom.computed s.nextCallId (opts.queryFn s.nextCallId), .fin now⟩,
          s.nextCallId + 1⟩) := by
  simp only [fetchQuery, Query.make_key, Query.make_fetch, hget, hstale]
  simp

theorem fetchQuery_miss {E T : Type} (opts : QueryOptions E T) (g now : Int)
    (s : ClientState E T)
    (hget : mapGet s.queries (stringifyKey opts.queryKey) = none) :
    fetchQuery opts g now s
      = (Prom.computed s.nextCallId (opts.queryFn s.nextCallId),
         ⟨mapSet s.queries (stringifyKey opts.queryKey)
            ⟨Prom.computed s.nextCallId (opts.queryFn s.nextCallId), .fin now⟩,
          s.nextCallId + 1⟩) := by
  simp only [fetchQuery, Query.make_key, Query.make_fetch, hget]

theorem ensureQuery_hit {E T : Type} (opts : QueryOptions E T) (g now : Int)
    (s : ClientState E T) (e : CacheEntry E T)
    (hget : mapGet s.queries (stringifyKey opts.queryKey) = some e) :
    ensureQuery opts g now s = (e.promise, s) := by
  simp only [ensureQuery, Query.make_key, hget]

theorem ensureQuery_miss {E T : Type} (opts : QueryOptions E T) (g now : Int)
    (s : ClientState E T)
    (hget : mapGet s.queries (stringifyKey opts.queryKey) = none) :
    ensureQuery opts g now s
      = (Prom.computed s.nextCallId (opts.queryFn s.nextCallId),
         ⟨mapSet s.queries (stringifyKey opts.queryKey)
            ⟨Prom.computed s.nextCallId (opts.queryFn s.nextCallId), .fin now⟩,
          s.nextCallId + 1⟩) := by
  simp only [ensureQuery, Query.make_key, Query.make_fetch, hget]

/-- `n` successive `fetchQuery` calls with the same options and the same
`Date.now()` reading, collecting the returned promises. -/
def fetchMany {E T : Type} (opts : QueryOptions E T) (g now : Int) :
    Nat → ClientState E T → List (Prom E T) × ClientState E T
  | 0, s => ([], s)
  | n + 1, s =>
    let r := fetchQuery opts g now s
    let rs := fetchMany opts g now n r.2
    (r.1 :: rs.1, rs.2)

theorem fetchMany_hit {E T : Type} (opts : QueryOptions E T) (g now : Int)
    (s : ClientState E T) (e : CacheEntry E T)
    (hget : mapGet s.queries (stringifyKey opts.queryKey) = some e)
    (hfresh : (Query.make opts g).isStale now e.createdAt = false) (n : Nat) :
    fetchMany opts g now n s = (List.replicate n e.promise, s) := by
  induction n with
  | zero => simp [fetchMany]
  | succ n ih =>
    simp [fetchMany, fetchQuery_hit opts g now s e hget hfresh, ih,
      List.replicate_succ]

/-- C2: while an entry for the key exists and is not stale, `fetchQuery`
returns that entry's held promise with the client state (including the
invocation counter) completely unchanged, so any number of repeated calls all
receive the same underlying promise and trigger no computation. -/
theorem C2_fetchQuery_dedup {E T : Type} (opts : QueryOptions E T) (g now : Int)
    (s : ClientState E T) (e : CacheEntry E T)
    (hget : mapGet s.queries (stringifyKey opts.queryKey) = some e)
    (hfresh : (Query.make opts g).isStale now e.createdAt = false) (n : Nat) :
    fetchQuery opts g now s = (e.promise, s)
  ∧ fetchMany opts g now n s = (List.replicate n e.promise, s) :=
  ⟨fetchQuery_hit opts g now s e hget hfresh,
   fetchMany_hit opts g now s e hget hfresh n⟩

/-- C2 witness: three `fetchQuery` calls at time 50 against the non-stale
`sampleEntry` (created at 0, stale time 100) all yield its promise and leave
`sampleState` untouched. -/
theorem C2_fetchQuery_dedup_witness :
    fetchQuery sampleOpts 0 50 sampleState = (Prom.resolved 7, sampleState)
  ∧ fetchMany sampleOpts 0 50 3 sampleState
      = ([Prom.resolved 7, Prom.resolved 7, Prom.resolved 7], sampleState) := by
  have h := C2_fetchQuery_dedup sampleOpts 0 50 sampleState sampleEntry rfl rfl 3
  exact ⟨h.1, by simpa using h.2⟩

/-- C5: `ensureQuery` with an existing entry (stale or not — no staleness
hypothesis appears) returns its promise with the state unchanged; hence a
second `ensureQuery` for the same key, at any later time and under any
default, returns exactly what the first returned and leaves its state alone,
and the two calls together invoke the query function at most once. -/
theorem C5_ensureQuery_at_most_once {E T : Type} (opts : QueryOptions E T)
    (g g2 now now2 : Int) (s : ClientState E T) :
    (∀ e, mapGet s.queries (stringifyKey opts.queryKey) = some e →
        ensureQuery opts g now s = (e.promise, s))
  ∧ ensureQuery opts g2 now2 (ensureQuery opts g now s).2
      = ((ensureQuery opts g now s).1, (ensureQuery opts g now s).2)
  ∧ (ensureQuery opts g2 now2 (ensureQuery opts g now s).2).2.nextCallId
      ≤ s.nextCallId + 1 := by
  have hmain : ensureQuery opts g2 now2 (ensureQuery opts g now s).2
      = ((ensureQuery opts g now s).1, (ensureQuery opts g now s).2) := by
    cases hget : mapGet s.queries (stringifyKey opts.queryKey) with
    | some e =>
      rw [ensureQuery_hit opts g now s e hget]
      exact ensureQuery_hit opts g2 now2 s e hget
    | none =>
      rw [ensureQuery_miss opts g now s hget]
      exact ensureQuery_hit opts g2 now2
        ⟨mapSet s.queries (stringifyKey opts.queryKey)
           ⟨Prom.computed s.nextCallId (opts.queryFn s.nextCallId), .fin now⟩,
         s.nextCallId + 1⟩
        ⟨Prom.computed s.nextCallId (opts.queryFn s.nextCallId), .fin now⟩
        (by simp [mapGet_mapSet])
  refine ⟨fun e hget => ensureQuery_hit opts g now s e hget, hmain, ?_⟩
  rw [hmain]
  cases hget : mapGet s.queries (stringifyKey opts.queryKey) with
  | some e => rw [ensureQuery_hit opts g now s e hget]; simp
  | none => rw [ensureQuery_miss opts g now s hget]

/-- C5 witness: on the empty state, the first `ensureQuery` computes once and
the second (with a different default stale time and a much later clock)
returns the same promise with no further computation. -/
theorem C5_ensureQuery_at_most_once_witness :
    ensureQuery sampleOpts 7 999999 (ensureQuery sampleOpts 0 0 emptyState).2
      = ((ensureQuery sampleOpts 0 0 emptyState).1,
         (ensureQuery sampleOpts 0 0 emptyState).2)
  ∧ (ensureQuery sampleOpts 7 999999 (ensureQuery sampleOpts 0 0 emptyState).2).2.nextCallId
      ≤ emptyState.nextCallId + 1 :=
  ⟨(C5_ensureQuery_at_most_once sampleOpts 0 7 0 999999 emptyState).2.1,
   (C5_ensureQuery_at_most_once sampleOpts 0 7 0 999999 emptyState).2.2⟩

/-- C3: `invalidateQuery(k)` followed by `fetchQuery` with a descriptor for
`k` invokes the query function (the returned promise is the one produced by a
fresh invocation and the invocation counter advances), while `getQuery` on any
key with a different canonical form is unaffected by the whole sequence. -/
theorem C3_invalidate_forces_recompute {E T : Type} (opts : QueryOptions E T)
    (g now : Int) (s : ClientState E T) (e : CacheEntry E T)
    (hget : mapGet s.queries (stringifyKey opts.queryKey) = some e) :
    (fetchQuery opts g now (invalidateQuery opts.queryKey s)).1
        = Prom.computed s.nextCallId (opts.queryFn s.nextCallId)
  ∧ (fetchQuery opts g now (invalidateQuery opts.queryKey s)).2.nextCallId
        = s.nextCallId + 1
  ∧ ∀ k2 : List JsVal, stringifyKey k2 ≠ stringifyKey opts.queryKey →
      getQuery k2 (fetchQuery opts g now (invalidateQuery opts.queryKey s)).2
        = getQuery k2 s := by
  have hinv : invalidateQuery opts.queryKey s
      = ⟨mapSet s.queries (stringifyKey opts.queryKey) e.invalidate, s.nextCallId⟩ := by
    simp [invalidateQuery, hget]
  have hget1 : mapGet (invalidateQuery opts.queryKey s).queries
      (stringifyKey opts.queryKey) = some e.invalidate := by
    rw [hinv]; simp [mapGet_mapSet]
  have hstale : (Query.make opts g).isStale now e.invalidate.createdAt = true := by
    simp [CacheEntry.invalidate, Query.isStale]
  have hfetch := fetchQuery_stale opts g now (invalidateQuery opts.queryKey s)
    e.invalidate hget1 hstale
  rw [hinv] at hfetch
  refine ⟨by rw [hinv, hfetch], by rw [hinv, hfetch], fun k2 hne => ?_⟩
  rw [hinv, hfetch]
  simp [getQuery, mapGet_mapSet, Ne.symm hne]

/-- C3 witness: invalidating `['users']` in `sampleState` and fetching it
again at time 0 recomputes (fresh promise with call id 0, counter bumped to
1), and `getQuery ['other']` is untouched. -/
theorem C3_invalidate_forces_recompute_witness :
    (fetchQuery sampleOpts 0 0 (invalidateQuery [.jsStr "users"] sampleState)).1
        = Prom.computed 0 (Except.ok 0)
  ∧ (fetchQuery sampleOpts 0 0 (invalidateQuery [.jsStr "users"] sampleState)).2.nextCallId
        = 1
  ∧ getQuery [.jsStr "other"]
        (fetchQuery sampleOpts 0 0 (invalidateQuery [.jsStr "users"] sampleState)).2
      = getQuery [.jsStr "other"] sampleState := by
  have h := C3_invalidate_forces_recompute sampleOpts 0 0 sampleState sampleEntry rfl
  exact ⟨h.1, h.2.1, h.2.2 [.jsStr "other"] (by decide)⟩

/-- C8: when the query function rejects, `fetchQuery` returns a promise whose
settlement is exactly that rejection (no wrapping), the rejected entry is
stored in the cache, and every subsequent non-stale `fetchQuery` (any number
of them) returns the very same rejected promise with no re-invocation of the
query function. -/
theorem C8_rejection_cached {E T : Type} (opts : QueryOptions E T) (g now : Int)
    (s : ClientState E T) (err : E)
    (habs : mapGet s.queries (stringifyKey opts.queryKey) = none)
    (herr : opts.queryFn s.nextCallId = .error err) :
    (fetchQuery opts g now s).1.outcome = Except.error err
  ∧ mapGet (fetchQuery opts g now s).2.queries (stringifyKey opts.queryKey)
      = some ⟨(fetchQuery opts g now s).1, ETime.fin now⟩
  ∧ ∀ now2, (Query.make opts g).isStale now2 (ETime.fin now) = false →
      ∀ n, fetchMany opts g now2 n (fetchQuery opts g now s).2
            = (List.replicate n (fetchQuery opts g now s).1,
               (fetchQuery opts g now s).2) := by
  have hfetch := fetchQuery_miss opts g now s habs
  refine ⟨by rw [hfetch]; simp [Prom.outcome, herr], by rw [hfetch]; simp [mapGet_mapSet],
    fun now2 hfresh n => ?_⟩
  rw [hfetch]
  exact fetchMany_hit opts g now2 _
    ⟨Prom.computed s.nextCallId (opts.queryFn s.nextCallId), .fin now⟩
    (by simp [mapGet_mapSet]) hfresh n

/-- Options whose query function always rejects with `"fail"`. -/
def failOpts : QueryOptions String Nat :=
  { staleTime? := some 100, queryKey := [.jsStr "boom"], queryFn := fun _ => .error "fail" }

/-- C8 witness: on the empty state `failOpts` caches its rejection at time 0,
and two further reads at time 50 (inside the stale window) return the same
rejected promise without recomputation. -/
theorem C8_rejection_cached_witness :
    (fetchQuery failOpts 0 0 emptyState).1.outcome = Except.error "fail"
  ∧ fetchMany failOpts 0 50 2 (fetchQuery failOpts 0 0 emptyState).2
      = (List.replicate 2 (fetchQuery failOpts 0 0 emptyState).1,
         (fetchQuery failOpts 0 0 emptyState).2) := by
  have h := C8_rejection_cached failOpts 0 0 emptyState "fail" rfl rfl
  exact ⟨h.1, h.2.2 50 rfl 2⟩

/-! ## JSON normalization and encoding lemmas -/

mutual
theorem encVal_normalize : ∀ v, encVal (normalizeJson v) = encVal v
  | .jsNull => rfl
  | .jsUndef => rfl
  | .jsNan => rfl
  | .jsInf => rfl
  | .jsFunc => rfl
  | .jsBool _ => rfl
  | .jsInt _ => rfl
  | .jsStr _ => rfl
  | .jsArr xs => congrArg (fun l => '[' :: (l ++ [']'])) (encList_normalize xs)

theorem encList_normalize : ∀ xs, encList (normalizeList xs) = encList xs
  | [] => rfl
  | [x] => encVal_normalize x
  | x :: y :: xs => by
    show encVal (normalizeJson x) ++ ',' :: encList (normalizeList (y :: xs))
        = encVal x ++ ',' :: encList (y :: xs)
    rw [encVal_normalize x, encList_normalize (y :: xs)]
end

/-- C10: JSON-unrepresentable fragments (`undefined`, `NaN`, `Infinity`,
functions) canonicalize to `null`: the canonical cache key of any key sequence
is unchanged by replacing such fragments with `null` (so `[undefined]`,
`[NaN]`, `[Infinity]`, `[function]` and `[null]` all denote the cache slot of
`[null]`), and the reconstructed `queryKey` getter returns the normalized
fragments — `null` in place of the original — rather than round-tripping. -/
theorem C10_unrepresentable_fragments {E T : Type} (g : Int) (opts : QueryOptions E T) :
    (∀ key : List JsVal, stringifyKey (normalizeList key) = stringifyKey key)
  ∧ (Query.make opts g).queryKey = normalizeList opts.queryKey
  ∧ stringifyKey [.jsUndef] = stringifyKey [.jsNull]
  ∧ stringifyKey [.jsNan] = stringifyKey [.jsNull]
  ∧ stringifyKey [.jsInf] = stringifyKey [.jsNull]
  ∧ stringifyKey [.jsFunc] = stringifyKey [.jsNull]
  ∧ (Query.make { opts with queryKey := [.jsUndef] } g).queryKey = [.jsNull]
  ∧ (Query.make { opts with queryKey := [.jsNan] } g).queryKey = [.jsNull]
  ∧ (Query.make { opts with queryKey := [.jsUndef] } g).queryKey ≠ [.jsUndef] := by
  refine ⟨fun key => encVal_normalize (.jsArr key), rfl, rfl, rfl, rfl, rfl, rfl, rfl, ?_⟩
  intro h
  injection h with h1 _
  exact JsVal.noConfusion h1

/-! ## Prefix-invalidation lemmas -/

theorem strStarts_append (xs ys : List Char) : strStarts (xs ++ ys) xs = true := by
  induction xs with
  | nil => simp [strStarts]
  | cons c cs ih => simp [strStarts, ih]

theorem encList_append (p r : List JsVal) :
    ∃ t, encList (p ++ r) = encList p ++ t := by
  induction p with
  | nil => exact ⟨encList r, by simp [encList]⟩
  | cons x ps ih =>
    cases ps with
    | nil =>
      cases r with
      | nil => exact ⟨[], by simp [encList]⟩
      | cons y rs => exact ⟨',' :: encList (y :: rs), by simp [encList]⟩
    | cons y ps' =>
      obtain ⟨t, ht⟩ := ih
      refine ⟨t, ?_⟩
      rw [List.cons_append] at ht
      show encVal x ++ ',' :: encList (y :: (ps' ++ r))
          = (encVal x ++ ',' :: encList (y :: ps')) ++ t
      rw [ht]
      simp [List.append_assoc]

theorem stringifyKey_dropLast (p : List JsVal) :
    (stringifyKey p).dropLast = '[' :: encList p := by
  have h : stringifyKey p = ('[' :: encList p) ++ [']'] := by
    simp [stringifyKey, encVal]
  rw [h, List.dropLast_concat]

theorem specBegins_strStarts (p kf : List JsVal) (h : specBegins p kf) :
    strStarts (stringifyKey kf) ((stringifyKey p).dropLast) = true := by
  obtain ⟨r, rfl⟩ := h
  rw [stringifyKey_dropLast]
  obtain ⟨t, ht⟩ := encList_append p r
  show strStarts ('[' :: (encList (p ++ r) ++ [']'])) ('[' :: encList p) = true
  rw [ht, List.append_assoc]
  simp [strStarts, strStarts_append]

/-- C1 (amended): `invalidateQueries(p)` marks maximally stale exactly those
entries whose canonical key string starts with `JSON.stringify(p)` minus its
final character.  Every entry whose fragment sequence begins with the
fragments of `p` is marked (so an empty `p` marks every canonically-keyed
entry), and a key sharing only a proper substring of a string fragment
(`['userset']` for `p = ['user']`) is never marked because the closing quote
delimits string fragments; but a non-string final fragment of `p` matches on a
textual extension of its encoding, e.g. `p = [1]` marks the entry of key
`[10]`. -/
theorem C1_amended_prefixInvalidation {E T : Type} (s : ClientState E T)
    (p : List JsVal) :
    (∀ k', mapGet (invalidateQueries p s).queries k'
        = (mapGet s.queries k').map
            fun e => if strStarts k' ((stringifyKey p).dropLast) then e.invalidate else e)
  ∧ (∀ kf, specBegins p kf →
        strStarts (stringifyKey kf) ((stringifyKey p).dropLast) = true)
  ∧ (∀ kf, strStarts (stringifyKey kf)
        ((stringifyKey ([] : List JsVal)).dropLast) = true)
  ∧ strStarts (stringifyKey [JsVal.jsStr "userset"])
      ((stringifyKey [JsVal.jsStr "user"]).dropLast) = false
  ∧ strStarts (stringifyKey [JsVal.jsInt 10])
      ((stringifyKey [JsVal.jsInt 1]).dropLast) = true := by
  refine ⟨fun k' => ?_, fun kf h => specBegins_strStarts p kf h,
    fun kf => specBegins_strStarts [] kf ⟨kf, rfl⟩, by decide, by decide⟩
  simp only [invalidateQueries]
  exact mapGet_invalidateMap ((stringifyKey p).dropLast) s.queries k'

/-- C1 amended witness: concrete uses of the theorem — after
`invalidateQueries(['a'])` on a two-entry cache, the entry of `['a','x']` is
marked `-Infinity` (its key-fragment sequence begins with `['a']`) and the
entry of `['ab']` is untouched. -/
theorem C1_amended_prefixInvalidation_witness :
    mapGet (invalidateQueries [JsVal.jsStr "a"]
        (⟨[(stringifyKey [JsVal.jsStr "a", JsVal.jsStr "x"], ⟨Prom.resolved 1, .fin 5⟩),
           (stringifyKey [JsVal.jsStr "ab"], ⟨Prom.resolved 2, .fin 6⟩)], 0⟩ :
          ClientState String Nat)).queries
      (stringifyKey [JsVal.jsStr "a", JsVal.jsStr "x"])
      = some ⟨Prom.resolved 1, ETime.negInf⟩
  ∧ mapGet (invalidateQueries [JsVal.jsStr "a"]
        (⟨[(stringifyKey [JsVal.jsStr "a", JsVal.jsStr "x"], ⟨Prom.resolved 1, .fin 5⟩),
           (stringifyKey [JsVal.jsStr "ab"], ⟨Prom.resolved 2, .fin 6⟩)], 0⟩ :
          ClientState String Nat)).queries
      (stringifyKey [JsVal.jsStr "ab"])
      = some ⟨Prom.resolved 2, ETime.fin 6⟩
  ∧ strStarts (stringifyKey [JsVal.jsStr "a", JsVal.jsStr "x"])
      ((stringifyKey [JsVal.jsStr "a"]).dropLast) = true := by
  have h1 := (C1_amended_prefixInvalidation
    (⟨[(stringifyKey [JsVal.jsStr "a", JsVal.jsStr "x"], ⟨Prom.resolved 1, .fin 5⟩),
       (stringifyKey [JsVal.jsStr "ab"], ⟨Prom.resolved 2, .fin 6⟩)], 0⟩ :
      ClientState String Nat) [JsVal.jsStr "a"]).1
    (stringifyKey [JsVal.jsStr "a", JsVal.jsStr "x"])
  have h2 := (C1_amended_prefixInvalidation
    (⟨[(stringifyKey [JsVal.jsStr "a", JsVal.jsStr "x"], ⟨Prom.resolved 1, .fin 5⟩),
       (stringifyKey [JsVal.jsStr "ab"], ⟨Prom.resolved 2, .fin 6⟩)], 0⟩ :
      ClientState String Nat) [JsVal.jsStr "a"]).2.1
    [JsVal.jsStr "a", JsVal.jsStr "x"] ⟨[JsVal.jsStr "x"], rfl⟩
  refine ⟨?_, ?_, h2⟩
  · rw [h1]; rfl
  · have h3 := (C1_amended_prefixInvalidation
      (⟨[(stringifyKey [JsVal.jsStr "a", JsVal.jsStr "x"], ⟨Prom.resolved 1, .fin 5⟩),
         (stringifyKey [JsVal.jsStr "ab"], ⟨Prom.resolved 2, .fin 6⟩)], 0⟩ :
        ClientState String Nat) [JsVal.jsStr "a"]).1
      (stringifyKey [JsVal.jsStr "ab"])
    rw [h3]; rfl

/-- A client state holding one entry cached under the key `[10]`. -/
def cexState : ClientState String Nat :=
  ⟨[(stringifyKey [JsVal.jsInt 10], ⟨Prom.resolved 7, ETime.fin 0⟩)], 0⟩

/-- C1 counterexample: the key `[10]`'s fragment sequence does not begin with
the fragments of the prefix `[1]` (`10 ≠ 1` as a whole fragment), yet
`invalidateQueries([1])` marks the entry of `[10]` maximally stale — the
stripped encoding `"[1"` is a plain string prefix of `"[10]"`.  This refutes
the claim's assertion that a numeric fragment sharing only a digit prefix
never matches. -/
theorem C1_counterexample_numericFragment :
    (¬ specBegins [JsVal.jsInt 1] [JsVal.jsInt 10])
  ∧ mapGet (invalidateQueries [JsVal.jsInt 1] cexState).queries
        (stringifyKey [JsVal.jsInt 10])
      = some ⟨Prom.resolved 7, ETime.negInf⟩ := by
  constructor
  · rintro ⟨r, h⟩
    injection h with h1 _
    injection h1 with h2
    omega
  · rfl
